import Mathlib

/-!
Shallow embedding of the page-level document assembly and image/caption
fusion pipeline of the pdf-parser repository, together with proofs about
its behaviour.  Python strings are modelled as Lean `String`s; dictionaries
holding the extracted image/caption records are modelled as structures with
the fields the code actually reads; the external language/vision models and
the backing file store are modelled as explicit function-valued
environments.  Python's `int` is `ℤ`, its non-negative counts are `ℕ`, and
the float coordinates are `ℚ` (the code only ever adds, divides, squares
and compares them; see `calculate_distance_sq` for the square-root
comparison argument).
-/

/-- Character-level model of Python `str.split(sep)` for a one-character
separator: splitting the empty string yields `[[]]`, and every separator
character closes the current chunk. -/
def splitSep (sep : Char) : List Char → List (List Char)
  | [] => [[]]
  | c :: cs =>
    if c = sep then [] :: splitSep sep cs
    else
      match splitSep sep cs with
      | [] => [[c]]
      | h :: t => (c :: h) :: t

/-- Character-level model of Python `sep.join(parts)` for a one-character
separator. -/
def joinSep (sep : Char) : List (List Char) → List Char
  | [] => []
  | [x] => x
  | x :: y :: t => x ++ sep :: joinSep sep (y :: t)

/-- Python `text.split(sep)` on Lean strings (single-character separator). -/
def pySplit (sep : Char) (s : String) : List String :=
  (splitSep sep s.data).map (fun l => String.mk l)

/-- Python `sep.join(parts)` on Lean strings (single-character separator). -/
def pyJoin (sep : Char) (l : List String) : String :=
  String.mk (joinSep sep (l.map String.data))

/-- The ASCII whitespace characters recognised by Python's `\s` regex class
and by `str.split()`/`str.strip()` (the inputs handled here contain no
non-ASCII whitespace). -/
def isPySpace (c : Char) : Bool :=
  c = ' ' || c = '\t' || c = '\n' || c = '\r' || c = '\x0b' || c = '\x0c'

/-- Accumulator-based splitting of a character list on whitespace runs,
modelling Python `str.split()` with no arguments (leading, trailing and
repeated whitespace produce no empty words). -/
def splitWsAux : List Char → List Char → List (List Char)
  | [], acc => if acc.isEmpty then [] else [acc.reverse]
  | c :: cs, acc =>
    if isPySpace c then
      if acc.isEmpty then splitWsAux cs [] else acc.reverse :: splitWsAux cs []
    else splitWsAux cs (c :: acc)

/-- Python `text.split()`: the whitespace-separated words of a string. -/
def pyWords (s : String) : List String :=
  (splitWsAux s.data []).map (fun l => String.mk l)

/-- Python `str.strip()`: drop leading and trailing whitespace. -/
def pyStrip (s : String) : String :=
  String.mk (((s.data.dropWhile isPySpace).reverse.dropWhile isPySpace).reverse)

/-- Python `os.path.basename` for POSIX paths: the component after the last
slash. -/
def pyBasename (s : String) : String :=
  String.mk ((splitSep '/' s.data).getLastD [])

/-- Case-insensitive literal-token match at the head of a character list;
returns the remaining characters on success.  Models matching one regex
alternative such as `fig` under `re.IGNORECASE`. -/
def matchCaseless : List Char → List Char → Option (List Char)
  | [], rest => some rest
  | _ :: _, [] => none
  | t :: ts, c :: cs => if c.toLower = t.toLower then matchCaseless ts cs else none

/-- Case-sensitive literal-token match at the head of a character list;
returns the remaining characters on success. -/
def matchExact : List Char → List Char → Option (List Char)
  | [], rest => some rest
  | _ :: _, [] => none
  | t :: ts, c :: cs => if c = t then matchExact ts cs else none

/-- The suffix of `hay` following the last occurrence of `needle`
(`none` when `needle` never occurs).  For a non-empty `needle` this models
the combination of Python's `needle in hay` test and
`hay.split(needle)[-1]`. -/
def afterLastOcc (needle : List Char) : List Char → Option (List Char)
  | [] => none
  | c :: cs =>
    match afterLastOcc needle cs with
    | some r => some r
    | none => matchExact needle (c :: cs)

/-- Attempt, in alternation order, each token of `tokens` at the head of
`cs`, then skip `\s*` greedily and read a non-empty digit run; returns the
captured digits.  This is the semantics of an anchored Python regex
`^(t1|t2|...)\s*(\d+)` with `re.IGNORECASE` and backtracking across the
alternation (backtracking inside `\s*` can never help because a space is
not a digit). -/
def anchoredNumberedMatch : List (List Char) → List Char → Option String
  | [], _ => none
  | t :: ts, cs =>
    match matchCaseless t cs with
    | some rest =>
      let digits := (rest.dropWhile isPySpace).takeWhile Char.isDigit
      if digits.isEmpty then anchoredNumberedMatch ts cs else some (String.mk digits)
    | none => anchoredNumberedMatch ts cs

/-- Alternatives of the figure classification regex `^(fig|figure)\s*(\d+)`
at src/pdf_services/utils/image_utils.py:187, in the source's alternation
order. -/
def figTokens : List (List Char) := ["fig".data, "figure".data]

/-- Alternatives of the table classification regex `^(table|tab)\s*(\d+)`
at src/pdf_services/utils/image_utils.py:193. -/
def tabTokens : List (List Char) := ["table".data, "tab".data]

/-- Alternatives of the unanchored figure/table reference pattern
`(figure|fig|table|図|表)\s*\d+` at
src/pdf_services/utils/image_utils.py:241 and 248. -/
def refTokens : List (List Char) :=
  ["figure".data, "fig".data, "table".data, "図".data, "表".data]

/-- Does the reference pattern match at exactly this position?  True when
some alternative of `refTokens`, then `\s*`, then at least one digit
matches here. -/
def refAt (cs : List Char) : Bool :=
  refTokens.any (fun t =>
    match matchCaseless t cs with
    | some rest => !((rest.dropWhile isPySpace).takeWhile Char.isDigit).isEmpty
    | none => false)

/-- Unanchored scan of `re.search`: does the reference pattern match at any
position of the character list? -/
def pySearchRef : List Char → Bool
  | [] => false
  | c :: cs => refAt (c :: cs) || pySearchRef cs

/-- Truthiness of `re.search(r'(figure|fig|table|図|表)\s*\d+', line,
re.IGNORECASE)` on one line of page text. -/
def containsFigRef (line : String) : Bool :=
  pySearchRef line.data

/-- An extracted image record: the dictionary built at
src/pdf_services/utils/image_utils.py:43-50, with exactly the fields the
pipeline later reads.  `coordinates` is `none` when the partitioner
reported no bounding box, `image_path` is `none` when no file was written
(Python `None`), and `text` is the OCR text of the image region. -/
structure ImageRec where
  id : String
  page_number : ℕ
  coordinates : Option (List (ℚ × ℚ))
  image_path : Option String
  text : String
  category : String
deriving DecidableEq

/-- An extracted caption record: the dictionary built at
src/pdf_services/utils/image_utils.py:52-58. -/
structure CaptionRec where
  id : String
  page_number : ℕ
  coordinates : Option (List (ℚ × ℚ))
  text : String
  category : String
deriving DecidableEq

/-- Token-cost record, src/pdf_services/models/document.py:9-23.  Python
`int` fields are modelled as `ℤ`. -/
structure Cost where
  input_token : ℤ
  output_token : ℤ
deriving DecidableEq

/-- `Cost.zero_cost`, src/pdf_services/models/document.py:15-17. -/
def Cost.zero_cost : Cost := ⟨0, 0⟩

/-- `Cost.add_cost`, src/pdf_services/models/document.py:19-23:
component-wise addition. -/
def Cost.add_cost (self other : Cost) : Cost :=
  ⟨self.input_token + other.input_token, self.output_token + other.output_token⟩

/-- One page of the assembled document,
src/pdf_services/models/document.py:32-37.  The `images` field is
`Optional` in the dataclass (default `None`); the assembler always fills it
with the page's image list. -/
structure PageContents where
  contents : String
  page_number : ℕ
  images : Option (List ImageRec)
deriving DecidableEq

/-- The assembled document, src/pdf_services/models/document.py:57-61. -/
structure Document where
  contents : List PageContents
  cost : Cost
deriving DecidableEq

/-- `find_midpoint_from_corners`, src/pdf_services/utils/image_utils.py:62-70:
the arithmetic mean of the corner coordinates, `(0, 0)` when the point list
is absent or empty (`if not points`). -/
def find_midpoint_from_corners (points : Option (List (ℚ × ℚ))) : ℚ × ℚ :=
  match points with
  | none => (0, 0)
  | some [] => (0, 0)
  | some ps =>
    ((ps.map Prod.fst).sum / (ps.length : ℚ), (ps.map Prod.snd).sum / (ps.length : ℚ))

/-- Squared Euclidean distance between two midpoints.
`calculate_distance` at src/pdf_services/utils/image_utils.py:72-74 computes
`((dx)**2 + (dy)**2) ** 0.5` and the matcher only ever compares such
distances with `<`; since the square root is strictly monotone on
non-negative reals, comparing the squares selects exactly the same caption.
The bridge is proved in `sqrt_lt_sqrt_iff_rat` below, and the matching
theorem states minimality in terms of `Real.sqrt` of this quantity. -/
def calculate_distance_sq (center1 center2 : ℚ × ℚ) : ℚ :=
  (center1.1 - center2.1) ^ 2 + (center1.2 - center2.2) ^ 2

/-- The guard of src/pdf_services/utils/image_utils.py:86-87: the caption
lies on the image's page and its midpoint y-coordinate is strictly greater
than the image's (visually below the image). -/
def caption_below (image : ImageRec) (caption : CaptionRec) : Prop :=
  image.page_number = caption.page_number ∧
  (find_midpoint_from_corners image.coordinates).2 <
    (find_midpoint_from_corners caption.coordinates).2

instance (image : ImageRec) (caption : CaptionRec) :
    Decidable (caption_below image caption) :=
  inferInstanceAs (Decidable (_ ∧ _))

/-- Squared distance between an image midpoint and a caption midpoint,
the comparison quantity of src/pdf_services/utils/image_utils.py:89-90. -/
def img_cap_dist_sq (image : ImageRec) (caption : CaptionRec) : ℚ :=
  calculate_distance_sq (find_midpoint_from_corners image.coordinates)
    (find_midpoint_from_corners caption.coordinates)

/-- One iteration of the caption loop of `match_figures_to_captions`,
src/pdf_services/utils/image_utils.py:85-94.  The accumulator is the
current `(closest_caption, closest_distance)` pair; the source's initial
`closest_distance = float('inf')` is the `none` accumulator, which any
qualifying caption beats, and the strict `<` keeps the earlier caption on
ties. -/
def consider_caption (image : ImageRec) (acc : Option (CaptionRec × ℚ))
    (caption : CaptionRec) : Option (CaptionRec × ℚ) :=
  if caption_below image caption then
    let d := img_cap_dist_sq image caption
    match acc with
    | none => some (caption, d)
    | some pd => if d < pd.2 then some (caption, d) else acc
  else acc

/-- The full caption loop for one image: fold `consider_caption` over the
caption list starting from `closest_caption = None`. -/
def best_caption (image : ImageRec) (captions : List CaptionRec) :
    Option (CaptionRec × ℚ) :=
  captions.foldl (consider_caption image) none

/-- `match_figures_to_captions`, src/pdf_services/utils/image_utils.py:76-101:
one `(image id, matched caption id or none)` entry per image, in image
order. -/
def match_figures_to_captions (images : List ImageRec)
    (captions : List CaptionRec) : List (String × Option String) :=
  images.map (fun image =>
    match best_caption image captions with
    | some pd => (image.id, some pd.1.id)
    | none => (image.id, none))

/-- Environment abstracting the backing store and the vision model for
`generate_image_description`: `pathExists` models `os.path.exists`, and
`tryDescribe` models the whole `try:` block (open the image, build the
prompts, invoke the model and return `response.content`); its `error`
result models a raised exception with the exception's string form. -/
structure VisionEnv where
  pathExists : String → Bool
  tryDescribe : String → String → String → Except String String

/-- `generate_image_description`, src/pdf_services/utils/image_utils.py:103-157.
Returns the description string together with the number of attempted
vision-model invocations (the number of times the `try:` body is entered):
a missing path short-circuits before any invocation. -/
def generate_image_description (env : VisionEnv) (image_path caption ocr_text :
    String) : String × ℕ :=
  if env.pathExists image_path = false then ("画像が見つかりません", 0)
  else
    match env.tryDescribe image_path caption ocr_text with
    | .ok content => (content, 1)
    | .error e => ("画像説明の生成に失敗しました: " ++ e, 1)

/-- Python truthiness of the `image.get("image_path", "")` value: a stored
path that is neither `None` nor the empty string. -/
def pathTruthy : Option String → Bool
  | none => false
  | some s => !s.isEmpty

/-- Lines 174-196 of src/pdf_services/utils/image_utils.py: derive the
`(figure_name, figure_type)` pair for one image.  The default name is the
file base name when a truthy path is stored and `"Unknown Figure"`
otherwise; a non-empty OCR text is then classified by the anchored
figure and table regexes. -/
def classify_figure (image_path : Option String) (ocr_text : String) :
    String × String :=
  let figure_name :=
    if pathTruthy image_path then pyBasename (image_path.getD "")
    else "Unknown Figure"
  let figure_type := "Figure"
  if ocr_text = "" then (figure_name, figure_type)
  else
    match anchoredNumberedMatch figTokens ocr_text.data with
    | some d => ("Figure " ++ d, "Figure")
    | none =>
      match anchoredNumberedMatch tabTokens ocr_text.data with
      | some d => ("Table " ++ d, "Table")
      | none => (figure_name, figure_type)

/-- Loop body of `generate_page_image_descriptions`,
src/pdf_services/utils/image_utils.py:173-219: the formatted information
block for one image (classification header, optional OCR text, optional
normalised image path, optional generated description). -/
def image_info_block (env : VisionEnv) (image : ImageRec) : String :=
  let fig := classify_figure image.image_path image.text
  let ocr_text := image.text
  let image_description :=
    if pathTruthy image.image_path then
      (generate_image_description env (image.image_path.getD "") "" ocr_text).1
    else ""
  let info := "[" ++ fig.2 ++ "] " ++ fig.1
  let info :=
    if ocr_text ≠ "" ∧ pyStrip ocr_text ≠ "" then
      info ++ "\n[Image Text]: " ++ pyStrip ocr_text
    else info
  let info :=
    if pathTruthy image.image_path then
      let p := image.image_path.getD ""
      let p :=
        match afterLastOcc "images/".data p.data with
        | some r => "images/" ++ String.mk r
        | none => p
      info ++ "\n[Image Path]: " ++ p
    else info
  if image_description ≠ "" then info ++ "\n[Description]: " ++ image_description
  else info

/-- `generate_page_image_descriptions`,
src/pdf_services/utils/image_utils.py:166-221: join the per-image blocks
with a blank-line separator; empty image list yields `""`.  The
`page_text` parameter is accepted and ignored exactly as in the source. -/
def generate_page_image_descriptions (env : VisionEnv)
    (page_images : List ImageRec) (page_text : String) : String :=
  if page_images.isEmpty then ""
  else
    let _ := page_text
    String.intercalate "\n\n" (page_images.map (image_info_block env))

/-- `insert_image_descriptions_in_text`,
src/pdf_services/utils/image_utils.py:223-251: walk the lines of `text`,
appending after every line matching the figure/table reference pattern the
element `"\n" ++ descriptions ++ "\n"`; if no line matches, append the
fallback element `"\n--- Images ---\n" ++ descriptions`; finally join with
newlines. -/
def insert_image_descriptions_in_text (env : VisionEnv) (text : String)
    (page_images : List ImageRec) : String :=
  if page_images.isEmpty then text
  else
    let lines := pySplit '\n' text
    let image_descriptions := generate_page_image_descriptions env page_images text
    let enhanced_lines := lines.flatMap (fun line =>
      if containsFigRef line then [line, "\n" ++ image_descriptions ++ "\n"]
      else [line])
    let enhanced_lines :=
      if lines.any containsFigRef then enhanced_lines
      else enhanced_lines ++ ["\n--- Images ---\n" ++ image_descriptions]
    pyJoin '\n' enhanced_lines

/-- Python's built-in `round`: round half to even (banker's rounding),
used only to state the spec's version of the token estimator. -/
def pyRound (q : ℚ) : ℤ :=
  let fl := ⌊q⌋
  let frac := q - (fl : ℚ)
  if frac < 1 / 2 then fl
  else if 1 / 2 < frac then fl + 1
  else if fl % 2 = 0 then fl else fl + 1

/-- The inline token estimate of src/pdf_services/utils/text_utils.py:52-55:
`int(len(text.split()) * 1.3)`.  Python's `int()` truncates toward zero,
which for these non-negative values is the floor, so the estimate is
`⌊13·n/10⌋` for `n` words.  (The float product `n * 1.3` always rounds to
a double within 0.32 ulp of the exact rational `13n/10`, whose distance to
the nearest other integer is at least `1/10`, so the float truncation
agrees with the exact floor for every realistic word count.) -/
def tokenEstimate (text : String) : ℕ :=
  13 * (pyWords text).length / 10

/-- Modelled from the spec, for refutation comparison only: the estimator
as the spec states it, `round(word_count(text) * 1.3)`, with Python's
`round` semantics. -/
def tokenEstimate_spec (text : String) : ℤ :=
  pyRound (((pyWords text).length : ℚ) * (13 / 10))

/-- `process_text_with_llm`, src/pdf_services/utils/text_utils.py:33-55.
The language model is abstracted as a function from the page text to
`response.content`; the returned cost applies the inline estimator to the
input text and to the model output. -/
def process_text_with_llm (chat : String → String) (text : String) :
    String × Cost :=
  let content := chat text
  (content, ⟨(tokenEstimate text : ℤ), (tokenEstimate content : ℤ)⟩)

/-- Environment for the whole parser: the chat model used by the text
rewriter and the vision environment used by the image describer. -/
structure PdfEnv where
  chat : String → String
  vision : VisionEnv

/-- Python `enumerate(l, n)`. -/
def pyEnumerate {α : Type} : ℕ → List α → List (ℕ × α)
  | _, [] => []
  | n, x :: xs => (n, x) :: pyEnumerate (n + 1) xs

/-- `_process_single_page`, src/pdf_services/pdf_parser/enhanced_parser.py:64-78:
rewrite the page text, splice in the image descriptions when the page has
images, and return the enhanced text together with the text-rewrite cost
only. -/
def _process_single_page (env : PdfEnv) (page_text : String)
    (page_images : List ImageRec) (page_num : ℕ) : String × Cost :=
  let r := process_text_with_llm env.chat page_text
  let _ := page_num
  let enhanced_content :=
    if page_images.isEmpty then r.1
    else insert_image_descriptions_in_text env.vision r.1 page_images
  (enhanced_content, r.2)

/-- Body of the page loop of `process_pdf`,
src/pdf_services/pdf_parser/enhanced_parser.py:42-60: filter this page's
images, process the page, append the `PageContents` record and accumulate
the page cost. -/
def process_page_step (env : PdfEnv) (images : List ImageRec)
    (acc : List PageContents × Cost) (pt : ℕ × String) :
    List PageContents × Cost :=
  let page_images := images.filter (fun img => img.page_number == pt.1)
  let r := _process_single_page env pt.2 page_images pt.1
  (acc.1 ++ [⟨r.1, pt.1, some page_images⟩], acc.2.add_cost r.2)

/-- `process_pdf`, src/pdf_services/pdf_parser/enhanced_parser.py:25-62,
with the external extraction steps abstracted into the inputs: `pages_text`
is the per-page text from the PDF partitioner, `images`/`captions` are the
extracted records.  The caption matching is computed and, exactly as in
the source, never used afterwards. -/
def process_pdf (env : PdfEnv) (pages_text : List String)
    (images : List ImageRec) (captions : List CaptionRec) : Document :=
  let _matches := match_figures_to_captions images captions
  let r := (pyEnumerate 1 pages_text).foldl (process_page_step env images)
    ([], Cost.zero_cost)
  ⟨r.1, r.2⟩

/-- The `PageContents` record built for one enumerated page; the closed
form of the accumulation in `process_page_step`. -/
def pageOf (env : PdfEnv) (images : List ImageRec) (pt : ℕ × String) :
    PageContents :=
  let page_images := images.filter (fun img => img.page_number == pt.1)
  ⟨(_process_single_page env pt.2 page_images pt.1).1, pt.1, some page_images⟩

/-- Vision environment for concrete evaluations: no path exists on the
backing store, and the model (never reached) answers emptily. -/
def envNone : VisionEnv := ⟨fun _ => false, fun _ _ _ => .ok ""⟩

/-- Parser environment for concrete evaluations: the chat model echoes its
input unchanged. -/
def env0 : PdfEnv := ⟨fun s => s, envNone⟩

/-- A minimal concrete image record: no coordinates, no stored path, empty
OCR text. -/
def img0 : ImageRec := ⟨"img0", 1, none, none, "", "Image"⟩

/-- Concrete image on page 1 whose bounding box has midpoint `(1, 1)`. -/
def imgW : ImageRec :=
  ⟨"i1", 1, some [(0, 0), (2, 0), (2, 2), (0, 2)], none, "", "Image"⟩

/-- Concrete caption on page 1 whose midpoint `(1, 4)` lies below `imgW`. -/
def capW : CaptionRec :=
  ⟨"c1", 1, some [(0, 4), (2, 4)], "Figure 1: Example", "FigureCaption"⟩

/-- Invariant tying the caption-loop accumulator to the list `seen` of
captions already considered: a `none` accumulator means no caption seen so
far qualifies, and a `some (c, d)` accumulator means `c` is a qualifying
seen caption at squared distance `d`, every qualifying seen caption is at
squared distance at least `d`, and every qualifying caption seen strictly
before `c` is strictly farther (the first-encountered tie-break). -/
def BestAcc (image : ImageRec) (seen : List CaptionRec) :
    Option (CaptionRec × ℚ) → Prop
  | none => ∀ c ∈ seen, ¬ caption_below image c
  | some pd =>
    pd.2 = img_cap_dist_sq image pd.1 ∧ caption_below image pd.1 ∧
    (∃ p q, seen = p ++ pd.1 :: q ∧
      ∀ c' ∈ p, caption_below image c' → pd.2 < img_cap_dist_sq image c') ∧
    (∀ c' ∈ seen, caption_below image c' → pd.2 ≤ img_cap_dist_sq image c')

theorem splitSep_ne_nil (sep : Char) (l : List Char) : splitSep sep l ≠ [] := by
  induction l with
  | nil => simp [splitSep]
  | cons c cs ih =>
    simp only [splitSep]
    split
    · simp
    · split
      · simp
      · simp

theorem splitSep_cons_self (sep : Char) (cs : List Char) :
    splitSep sep (sep :: cs) = [] :: splitSep sep cs := by
  simp [splitSep]

theorem splitSep_cons_ne (sep c : Char) (cs hd : List Char)
    (tl : List (List Char)) (hc : c ≠ sep) (hh : splitSep sep cs = hd :: tl) :
    splitSep sep (c :: cs) = (c :: hd) :: tl := by
  simp [splitSep, hc, hh]

theorem splitSep_append_sep (sep : Char) (a b : List Char) :
    splitSep sep (a ++ sep :: b) = splitSep sep a ++ splitSep sep b := by
  induction a with
  | nil => simp [splitSep_cons_self, splitSep]
  | cons c cs ih =>
    rw [List.cons_append]
    by_cases hc : c = sep
    · subst hc
      rw [splitSep_cons_self, splitSep_cons_self, ih, List.cons_append]
    · obtain ⟨hd, tl, hh⟩ := List.exists_cons_of_ne_nil (splitSep_ne_nil sep cs)
      rw [splitSep_cons_ne sep c cs hd tl hc hh,
        splitSep_cons_ne sep c (cs ++ sep :: b) hd (tl ++ splitSep sep b) hc
          (by rw [ih, hh, List.cons_append]),
        List.cons_append]

theorem joinSep_cons_cons (sep : Char) (x y : List Char)
    (t : List (List Char)) :
    joinSep sep (x :: y :: t) = x ++ sep :: joinSep sep (y :: t) := rfl

theorem joinSep_splitSep (sep : Char) (l : List Char) :
    joinSep sep (splitSep sep l) = l := by
  induction l with
  | nil => rfl
  | cons c cs ih =>
    by_cases hc : c = sep
    · subst hc
      obtain ⟨hd, tl, hh⟩ := List.exists_cons_of_ne_nil (splitSep_ne_nil c cs)
      rw [hh] at ih
      rw [splitSep_cons_self, hh, joinSep_cons_cons, ih, List.nil_append]
    · obtain ⟨hd, tl, hh⟩ := List.exists_cons_of_ne_nil (splitSep_ne_nil sep cs)
      rw [hh] at ih
      rw [splitSep_cons_ne sep c cs hd tl hc hh]
      cases tl with
      | nil =>
        simp only [joinSep] at ih ⊢
        rw [ih]
      | cons t1 ts =>
        rw [joinSep_cons_cons] at ih
        rw [joinSep_cons_cons, List.cons_append, ih]

theorem splitSep_joinSep (sep : Char) (L : List (List Char)) (h : L ≠ []) :
    splitSep sep (joinSep sep L) = L.flatMap (splitSep sep) := by
  induction L with
  | nil => exact absurd rfl h
  | cons x xs ih =>
    cases xs with
    | nil => simp [joinSep]
    | cons y ys =>
      rw [joinSep_cons_cons, splitSep_append_sep, ih (by simp)]
      simp [List.flatMap_cons]

theorem not_mem_of_mem_splitSep (sep : Char) (l p : List Char)
    (hp : p ∈ splitSep sep l) : sep ∉ p := by
  induction l generalizing p with
  | nil =>
    simp only [splitSep, List.mem_singleton] at hp
    simp [hp]
  | cons c cs ih =>
    by_cases hc : c = sep
    · subst hc
      rw [splitSep_cons_self] at hp
      rcases List.mem_cons.mp hp with hp | hp
      · simp [hp]
      · exact ih p hp
    · obtain ⟨hd, tl, hh⟩ := List.exists_cons_of_ne_nil (splitSep_ne_nil sep cs)
      rw [splitSep_cons_ne sep c cs hd tl hc hh] at hp
      rcases List.mem_cons.mp hp with hp | hp
      · subst hp
        intro hmem
        rcases List.mem_cons.mp hmem with h1 | h1
        · exact hc h1.symm
        · exact ih hd (by rw [hh]; exact List.mem_cons_self hd tl) h1
      · exact ih p (by rw [hh]; exact List.mem_cons_of_mem hd hp)

theorem splitSep_of_not_mem (sep : Char) (l : List Char) (h : sep ∉ l) :
    splitSep sep l = [l] := by
  induction l with
  | nil => rfl
  | cons c cs ih =>
    have hc : c ≠ sep := fun hcc => h (by simp [hcc])
    have hcs : sep ∉ cs := fun hm => h (List.mem_cons_of_mem _ hm)
    exact splitSep_cons_ne sep c cs cs [] hc (ih hcs)

theorem joinSep_append_single (sep : Char) (A : List (List Char))
    (x : List Char) (h : A ≠ []) :
    joinSep sep (A ++ [x]) = joinSep sep A ++ sep :: x := by
  induction A with
  | nil => exact absurd rfl h
  | cons a as ih =>
    cases as with
    | nil => simp [joinSep]
    | cons b bs =>
      calc joinSep sep ((a :: b :: bs) ++ [x])
          = a ++ sep :: joinSep sep ((b :: bs) ++ [x]) := rfl
        _ = a ++ sep :: (joinSep sep (b :: bs) ++ sep :: x) := by
            rw [ih (by simp)]
        _ = joinSep sep (a :: b :: bs) ++ sep :: x := by
            rw [joinSep_cons_cons]; simp

theorem pySplit_ne_nil (sep : Char) (s : String) : pySplit sep s ≠ [] := by
  unfold pySplit
  intro h
  exact splitSep_ne_nil sep s.data (List.map_eq_nil_iff.mp h)

theorem pySplit_mem_self (sep : Char) (s l : String) (h : l ∈ pySplit sep s) :
    pySplit sep l = [l] := by
  unfold pySplit at h ⊢
  obtain ⟨p, hp, rfl⟩ := List.mem_map.mp h
  have hnm : sep ∉ p := not_mem_of_mem_splitSep sep s.data p hp
  rw [show (String.mk p).data = p from rfl, splitSep_of_not_mem sep p hnm]
  rfl

theorem pyJoin_pySplit (sep : Char) (s : String) :
    pyJoin sep (pySplit sep s) = s := by
  apply String.ext
  show joinSep sep
    (((splitSep sep s.data).map (fun l => String.mk l)).map String.data) = s.data
  rw [List.map_map, show (String.data ∘ fun l => String.mk l) = id from rfl,
    List.map_id]
  exact joinSep_splitSep sep s.data

theorem pySplit_pyJoin (sep : Char) (L : List String) (h : L ≠ []) :
    pySplit sep (pyJoin sep L) = L.flatMap (pySplit sep) := by
  unfold pySplit pyJoin
  calc (splitSep sep ((String.mk (joinSep sep (L.map String.data))).data)).map
        (fun l => String.mk l)
      = ((L.map String.data).flatMap (splitSep sep)).map (fun l => String.mk l) := by
        rw [show (String.mk (joinSep sep (L.map String.data))).data =
          joinSep sep (L.map String.data) from rfl,
          splitSep_joinSep sep _ (by simpa using h)]
    _ = (L.flatMap fun s => splitSep sep s.data).map (fun l => String.mk l) := by
        rw [List.flatMap_map]
    _ = L.flatMap fun s => (splitSep sep s.data).map (fun l => String.mk l) := by
        rw [List.map_flatMap]

theorem pyJoin_append_single (sep : Char) (A : List String) (x : String)
    (h : A ≠ []) :
    pyJoin sep (A ++ [x]) = pyJoin sep A ++ String.mk [sep] ++ x := by
  apply String.ext
  show joinSep sep ((A ++ [x]).map String.data) = _
  rw [List.map_append]
  show joinSep sep (A.map String.data ++ [x.data]) = _
  rw [joinSep_append_single sep _ _ (by simpa using h)]
  simp only [String.data_append]
  rw [show (pyJoin sep A).data = joinSep sep (A.map String.data) from rfl,
    List.append_assoc]
  rfl

theorem flatMap_congr_mem {α β : Type} (l : List α) (f g : α → List β)
    (h : ∀ a ∈ l, f a = g a) : l.flatMap f = l.flatMap g := by
  induction l with
  | nil => rfl
  | cons a as ih =>
    simp only [List.flatMap_cons, h a (List.mem_cons_self a as)]
    rw [ih (fun b hb => h b (List.mem_cons_of_mem a hb))]

theorem flatMap_ne_nil_of_ne_nil {α β : Type} (l : List α) (f : α → List β)
    (hl : l ≠ []) (hf : ∀ a, f a ≠ []) : l.flatMap f ≠ [] := by
  cases l with
  | nil => exact absurd rfl hl
  | cons a as =>
    simp only [List.flatMap_cons]
    intro hcontra
    exact hf a (List.append_eq_nil.mp hcontra).1

theorem pySplit_newline_wrap (D : String) :
    pySplit '\n' ("\n" ++ D ++ "\n") = "" :: (pySplit '\n' D ++ [""]) := by
  unfold pySplit
  rw [show ("\n" ++ D ++ "\n" : String).data = '\n' :: (D.data ++ '\n' :: []) by
    simp [String.data_append]]
  rw [splitSep_cons_self, splitSep_append_sep]
  simp [splitSep]

theorem pySplit_fallback_block (D : String) :
    pySplit '\n' ("\n--- Images ---\n" ++ D) =
      "" :: "--- Images ---" :: pySplit '\n' D := by
  unfold pySplit
  rw [show ("\n--- Images ---\n" ++ D : String).data =
    '\n' :: ("--- Images ---".data ++ '\n' :: D.data) by simp [String.data_append]]
  rw [splitSep_cons_self, splitSep_append_sep,
    splitSep_of_not_mem '\n' "--- Images ---".data (by decide)]
  rfl

theorem insert_image_descriptions_eq (env : VisionEnv) (text : String)
    (imgs : List ImageRec) :
    insert_image_descriptions_in_text env text imgs =
      if imgs.isEmpty then text
      else
        pyJoin '\n'
          (if (pySplit '\n' text).any containsFigRef then
            (pySplit '\n' text).flatMap (fun line =>
              if containsFigRef line then
                [line, "\n" ++ generate_page_image_descriptions env imgs text ++ "\n"]
              else [line])
          else
            (pySplit '\n' text).flatMap (fun line =>
              if containsFigRef line then
                [line, "\n" ++ generate_page_image_descriptions env imgs text ++ "\n"]
              else [line]) ++
            ["\n--- Images ---\n" ++ generate_page_image_descriptions env imgs text]) :=
  rfl

theorem splicer_lines_of_any (env : VisionEnv) (text : String)
    (imgs : List ImageRec) (h1 : imgs.isEmpty = false)
    (hany : (pySplit '\n' text).any containsFigRef = true) :
    pySplit '\n' (insert_image_descriptions_in_text env text imgs) =
      (pySplit '\n' text).flatMap (fun l =>
        if containsFigRef l then
          l :: "" ::
            (pySplit '\n' (generate_page_image_descriptions env imgs text) ++ [""])
        else [l]) := by
  rw [insert_image_descriptions_eq, h1, if_neg (by simp), if_pos hany]
  have hch : ∀ l : String,
      (if containsFigRef l then
        [l, "\n" ++ generate_page_image_descriptions env imgs text ++ "\n"]
      else [l]) ≠ [] := by
    intro l
    by_cases hc : containsFigRef l <;> simp [hc]
  rw [pySplit_pyJoin '\n' _
    (flatMap_ne_nil_of_ne_nil _ _ (pySplit_ne_nil '\n' text) hch)]
  rw [List.flatMap_assoc]
  apply flatMap_congr_mem
  intro l hl
  by_cases hc : containsFigRef l
  · rw [if_pos hc, if_pos hc]
    rw [show ([l, "\n" ++ generate_page_image_descriptions env imgs text ++ "\n"] :
        List String).flatMap (pySplit '\n') =
      pySplit '\n' l ++
        (pySplit '\n' ("\n" ++ generate_page_image_descriptions env imgs text ++ "\n")
          ++ []) from rfl]
    rw [pySplit_mem_self '\n' text l hl, pySplit_newline_wrap]
    simp
  · rw [if_neg hc, if_neg hc]
    rw [show ([l] : List String).flatMap (pySplit '\n') = pySplit '\n' l ++ [] from rfl]
    rw [pySplit_mem_self '\n' text l hl]
    simp

theorem splicer_of_no_ref (env : VisionEnv) (text : String)
    (imgs : List ImageRec) (h1 : imgs.isEmpty = false)
    (hany : (pySplit '\n' text).any containsFigRef = false) :
    insert_image_descriptions_in_text env text imgs =
      text ++ "\n" ++
        ("\n--- Images ---\n" ++ generate_page_image_descriptions env imgs text) := by
  rw [insert_image_descriptions_eq, h1, if_neg (by simp), if_neg (by simp [hany])]
  have hflat : (pySplit '\n' text).flatMap (fun line =>
      if containsFigRef line then
        [line, "\n" ++ generate_page_image_descriptions env imgs text ++ "\n"]
      else [line]) = pySplit '\n' text := by
    rw [flatMap_congr_mem _ _ (fun x => [x]) ?_]
    · exact List.flatMap_singleton' _
    · intro a ha
      rw [if_neg (by simp [List.any_eq_false.mp hany a ha])]
  rw [hflat, pyJoin_append_single '\n' _ _ (pySplit_ne_nil '\n' text),
    pyJoin_pySplit]

theorem pySplit_append_newline (a b : String) :
    pySplit '\n' (a ++ "\n" ++ b) = pySplit '\n' a ++ pySplit '\n' b := by
  unfold pySplit
  rw [show (a ++ "\n" ++ b : String).data = a.data ++ '\n' :: b.data by
    simp [String.data_append]]
  rw [splitSep_append_sep, List.map_append]

theorem sum_if_lengths (p : String → Bool) (k : ℕ) (lines : List String) :
    (lines.map (fun l => if p l then k + 1 else 1)).sum =
      lines.length + lines.countP p * k := by
  induction lines with
  | nil => simp
  | cons l ls ih =>
    simp only [List.map_cons, List.sum_cons, ih, List.countP_cons,
      List.length_cons]
    by_cases hp : p l
    · rw [if_pos hp, if_pos hp]
      ring
    · rw [if_neg hp, if_neg hp]
      ring

theorem sublist_flatMap_of_head {α : Type} (l : List α) (f : α → List α)
    (h : ∀ a ∈ l, ∃ t, f a = a :: t) : l.Sublist (l.flatMap f) := by
  induction l with
  | nil => simp
  | cons a as ih =>
    obtain ⟨t, ht⟩ := h a (List.mem_cons_self a as)
    rw [List.flatMap_cons, ht, List.cons_append]
    exact List.Sublist.cons₂ a
      ((ih (fun b hb => h b (List.mem_cons_of_mem a hb))).trans
        (List.sublist_append_right t (as.flatMap f)))

/-- C1 (amended): for a non-empty image list and a page text with at least
one line matching the figure/table reference pattern, the Description
Splicer inserts the full joined image-description block, surrounded by one
blank line on each side, immediately after EVERY matching line (the source
loop has no break, so the insertion is not limited to the first match); in
particular, when exactly one line matches, the output line count is the
original line count plus the block's line count plus 2. -/
theorem splicer_inserts_block_after_every_matching_line (env : VisionEnv)
    (text : String) (imgs : List ImageRec) (h1 : imgs.isEmpty = false)
    (h2 : (pySplit '\n' text).any containsFigRef = true) :
    pySplit '\n' (insert_image_descriptions_in_text env text imgs) =
      (pySplit '\n' text).flatMap (fun l =>
        if containsFigRef l then
          l :: "" ::
            (pySplit '\n' (generate_page_image_descriptions env imgs text) ++ [""])
        else [l]) ∧
    ((pySplit '\n' text).countP containsFigRef = 1 →
      (pySplit '\n' (insert_image_descriptions_in_text env text imgs)).length =
        (pySplit '\n' text).length +
          (pySplit '\n' (generate_page_image_descriptions env imgs text)).length
          + 2) := by
  have hA := splicer_lines_of_any env text imgs h1 h2
  refine ⟨hA, fun hcount => ?_⟩
  rw [hA, List.length_flatMap]
  have hfun : (List.length ∘ fun l : String =>
      if containsFigRef l then
        l :: "" ::
          (pySplit '\n' (generate_page_image_descriptions env imgs text) ++ [""])
      else [l]) = fun l =>
      if containsFigRef l then
        ((pySplit '\n' (generate_page_image_descriptions env imgs text)).length
          + 2) + 1
      else 1 := by
    funext l
    by_cases hc : containsFigRef l
    · simp only [Function.comp]
      rw [if_pos hc, if_pos hc]
      simp only [List.length_cons, List.length_append, List.length_singleton,
        List.length_nil]
    · simp only [Function.comp]
      rw [if_neg hc, if_neg hc]
      simp
  rw [hfun, sum_if_lengths, hcount]
  ring

/-- Witness for the amended C1 theorem: the text `"fig 1"` has exactly one
matching line, the block for `img0` is the single line
`[Figure] Unknown Figure`, and the output has 1 + 1 + 2 = 4 lines. -/
theorem splicer_insertion_witness :
    ([img0].isEmpty = false) ∧
    ((pySplit '\n' "fig 1").any containsFigRef = true) ∧
    ((pySplit '\n' "fig 1").countP containsFigRef = 1) ∧
    (pySplit '\n'
      (insert_image_descriptions_in_text envNone "fig 1" [img0])).length = 4 := by
  refine ⟨by decide, by decide, by decide, ?_⟩
  exact ((splicer_inserts_block_after_every_matching_line envNone "fig 1" [img0]
    (by decide) (by decide)).2 (by decide)).trans (by decide)

/-- Counterexample to C1 as stated: on a text with two matching lines the
splicer inserts the block after both of them, so the output is not the
single-insertion result that "after the first line (and only that line)"
prescribes. -/
theorem splicer_not_only_first_matching_line :
    insert_image_descriptions_in_text envNone "fig 1\na\nfig 2" [img0] =
      "fig 1\n\n[Figure] Unknown Figure\n\na\nfig 2\n\n[Figure] Unknown Figure\n" ∧
    insert_image_descriptions_in_text envNone "fig 1\na\nfig 2" [img0] ≠
      "fig 1\n\n[Figure] Unknown Figure\n\na\nfig 2" := by
  exact ⟨by decide, by decide⟩

/-- C7: when no line of the page text matches the figure/table reference
pattern and the image list is non-empty, the Splicer's output is exactly
the original text followed by the fallback separator heading and the
image-description block: the original text is an unchanged prefix and the
block ends the output under the `--- Images ---` heading. -/
theorem splicer_fallback_appends_block (env : VisionEnv) (text : String)
    (imgs : List ImageRec) (h1 : imgs.isEmpty = false)
    (h2 : (pySplit '\n' text).any containsFigRef = false) :
    insert_image_descriptions_in_text env text imgs =
      text ++ "\n\n--- Images ---\n" ++
        generate_page_image_descriptions env imgs text := by
  rw [splicer_of_no_ref env text imgs h1 h2]
  apply String.ext
  simp only [String.data_append, List.append_assoc]
  congr 1

/-- Witness for the C7 theorem: `"hello"` has no matching line, and the
output is the text followed by the fallback heading and `img0`'s block. -/
theorem splicer_fallback_witness :
    ([img0].isEmpty = false) ∧
    ((pySplit '\n' "hello").any containsFigRef = false) ∧
    insert_image_descriptions_in_text envNone "hello" [img0] =
      "hello\n\n--- Images ---\n[Figure] Unknown Figure" := by
  refine ⟨by decide, by decide, ?_⟩
  exact (splicer_fallback_appends_block envNone "hello" [img0] (by decide)
    (by decide)).trans (by decide)

/-- C10: the Splicer never deletes, modifies or reorders original lines —
the lines of the input text are a sublist (in order) of the lines of the
output for every environment, text and image list — and with an empty
image list the output is exactly the input. -/
theorem splicer_preserves_original_lines :
    (∀ (env : VisionEnv) (text : String) (imgs : List ImageRec),
      (pySplit '\n' text).Sublist
        (pySplit '\n' (insert_image_descriptions_in_text env text imgs))) ∧
    (∀ (env : VisionEnv) (text : String),
      insert_image_descriptions_in_text env text [] = text) := by
  constructor
  · intro env text imgs
    by_cases h1 : imgs.isEmpty
    · rw [insert_image_descriptions_eq, if_pos h1]
    · have h1' : imgs.isEmpty = false := by simpa using h1
      by_cases h2 : (pySplit '\n' text).any containsFigRef
      · rw [splicer_lines_of_any env text imgs h1' h2]
        apply sublist_flatMap_of_head
        intro l _
        by_cases hc : containsFigRef l
        · exact ⟨_, if_pos hc⟩
        · exact ⟨[], if_neg hc⟩
      · have h2' : (pySplit '\n' text).any containsFigRef = false := by
          simpa using h2
        rw [splicer_of_no_ref env text imgs h1' h2', pySplit_append_newline]
        exact List.sublist_append_left _ _
  · intro env text
    rfl

/-- C9: Cost addition is commutative and the zero cost `(0, 0)` is an
identity for it (component-wise addition of `input_token` and
`output_token`). -/
theorem cost_add_comm_and_identity :
    (∀ a b : Cost, a.add_cost b = b.add_cost a) ∧
    (∀ a : Cost, a.add_cost Cost.zero_cost = a) := by
  constructor
  · intro a b
    cases a
    cases b
    simp [Cost.add_cost, Int.add_comm]
  · intro a
    cases a
    simp [Cost.add_cost, Cost.zero_cost]

/-- C5 (amended): the fallback token estimator truncates rather than
rounds: it returns `int(word_count(text) * 1.3)`, i.e. `⌊13·n/10⌋` for `n`
whitespace-separated words, and this estimate is applied to both the input
text and the model's output text. -/
theorem token_estimator_truncates (chat : String → String) (text : String) :
    (process_text_with_llm chat text).2.input_token =
      ((13 * (pyWords text).length / 10 : ℕ) : ℤ) ∧
    (process_text_with_llm chat text).2.output_token =
      ((13 * (pyWords (chat text)).length / 10 : ℕ) : ℤ) :=
  ⟨rfl, rfl⟩

/-- Counterexample to C5 as stated: for the two-word text `"a b"` the code
computes `int(2 * 1.3) = 2`, while `round(2 * 1.3) = 3`. -/
theorem token_estimator_not_rounding :
    (process_text_with_llm (fun s => s) "a b").2.input_token = 2 ∧
    tokenEstimate_spec "a b" = 3 ∧
    (process_text_with_llm (fun s => s) "a b").2.input_token ≠
      tokenEstimate_spec "a b" := by
  have h1 : (process_text_with_llm (fun s => s) "a b").2.input_token = 2 := by
    decide
  have h2 : tokenEstimate_spec "a b" = 3 := by
    have hw : (pyWords "a b").length = 2 := by decide
    simp only [tokenEstimate_spec, pyRound, hw]
    norm_num
  refine ⟨h1, h2, ?_⟩
  rw [h1, h2]
  decide

/-- C6: when the image path does not exist on the backing store,
`generate_image_description` returns exactly the localized
"image not found" placeholder and attempts no vision-model invocation. -/
theorem missing_image_returns_placeholder_without_vlm_call (env : VisionEnv)
    (image_path caption ocr_text : String)
    (h : env.pathExists image_path = false) :
    generate_image_description env image_path caption ocr_text =
      ("画像が見つかりません", 0) := by
  unfold generate_image_description
  rw [h, if_pos rfl]

/-- Witness for the C6 theorem at a concrete environment in which no path
exists. -/
theorem missing_image_witness :
    envNone.pathExists "missing.png" = false ∧
    generate_image_description envNone "missing.png" "" "" =
      ("画像が見つかりません", 0) :=
  ⟨rfl, missing_image_returns_placeholder_without_vlm_call envNone
    "missing.png" "" "" rfl⟩

/-- Counterexample to C8 as stated: an image that stores no path and whose
OCR text matches neither pattern is labeled `"Unknown Figure"`, not the
base name of the (absent, defaulted-to-empty) image-path value. -/
theorem classification_default_label_not_basename :
    classify_figure none "hello" = ("Unknown Figure", "Figure") ∧
    pyBasename "" = "" ∧
    (classify_figure none "hello").1 ≠ pyBasename "" :=
  ⟨by decide, by decide, by decide⟩

/-- C8 (amended): classification applies the anchored case-insensitive
regexes of the source: `fig`/`figure` then optional whitespace then digits
gives label `Figure N` with category `Figure` (`N` the captured digits);
otherwise `table`/`tab` likewise gives `Table N` with category `Table`;
otherwise the label defaults to the image file's base name when a
non-empty `image_path` is stored and to `"Unknown Figure"` otherwise, with
category defaulting to `Figure`. -/
theorem classification_characterization (image_path : Option String)
    (ocr_text : String) :
    classify_figure image_path ocr_text =
      match anchoredNumberedMatch figTokens ocr_text.data with
      | some d => ("Figure " ++ d, "Figure")
      | none =>
        match anchoredNumberedMatch tabTokens ocr_text.data with
        | some d => ("Table " ++ d, "Table")
        | none =>
          (if pathTruthy image_path then pyBasename (image_path.getD "")
           else "Unknown Figure", "Figure") := by
  by_cases h : ocr_text = ""
  · subst h
    rfl
  · unfold classify_figure
    rw [if_neg h]

theorem foldl_pages_fst (env : PdfEnv) (images : List ImageRec)
    (en : List (ℕ × String)) :
    ∀ (accL : List PageContents) (accC : Cost),
      (en.foldl (process_page_step env images) (accL, accC)).1 =
        accL ++ en.map (pageOf env images) := by
  induction en with
  | nil => intro accL accC; simp
  | cons p ps ih =>
    intro accL accC
    rw [List.foldl_cons,
      show process_page_step env images (accL, accC) p =
        (accL ++ [pageOf env images p],
          accC.add_cost (_process_single_page env p.2
            (images.filter (fun img => img.page_number == p.1)) p.1).2) from rfl,
      ih]
    simp

theorem foldl_pages_snd (env : PdfEnv) (images : List ImageRec)
    (ps : List String) :
    ∀ (n : ℕ) (accL : List PageContents) (accC : Cost),
      ((pyEnumerate n ps).foldl (process_page_step env images)
        (accL, accC)).2 =
        ps.foldl (fun c t => c.add_cost (process_text_with_llm env.chat t).2)
          accC := by
  induction ps with
  | nil => intro n accL accC; rfl
  | cons t ts ih =>
    intro n accL accC
    rw [show pyEnumerate n (t :: ts) = (n, t) :: pyEnumerate (n + 1) ts from rfl,
      List.foldl_cons, List.foldl_cons,
      show process_page_step env images (accL, accC) (n, t) =
        (accL ++ [pageOf env images (n, t)],
          accC.add_cost (process_text_with_llm env.chat t).2) from rfl]
    exact ih (n + 1) _ _

theorem pyEnumerate_length {α : Type} (n : ℕ) (l : List α) :
    (pyEnumerate n l).length = l.length := by
  induction l generalizing n with
  | nil => rfl
  | cons x xs ih => simp [pyEnumerate, ih]

theorem pyEnumerate_getElem {α : Type} (n : ℕ) (l : List α) (i : ℕ)
    (h : i < (pyEnumerate n l).length) (h' : i < l.length) :
    (pyEnumerate n l)[i] = (n + i, l[i]) := by
  induction l generalizing n i with
  | nil => simp at h'
  | cons x xs ih =>
    cases i with
    | zero => simp [pyEnumerate]
    | succ j =>
      have e : pyEnumerate n (x :: xs) = (n, x) :: pyEnumerate (n + 1) xs := rfl
      have hj : j < xs.length := Nat.lt_of_succ_lt_succ h'
      simp only [e, List.getElem_cons_succ]
      rw [ih (n + 1) j (by rw [pyEnumerate_length]; exact hj) hj]
      have hn : n + 1 + j = n + (j + 1) := by omega
      rw [hn]

/-- C3: for an N-page extraction the assembled Document has exactly N page
entries, the i-th entry carries page number i+1, and each page's images
field is exactly the extracted images whose recorded page number equals
that page's number; the whole assembly is independent of the caption list
(and hence of the caption-match outcome, which the source computes and
never uses). -/
theorem process_pdf_page_assembly_invariant (env : PdfEnv)
    (pages_text : List String) (images : List ImageRec)
    (captions : List CaptionRec) :
    (process_pdf env pages_text images captions).contents.length =
      pages_text.length ∧
    (∀ (i : ℕ)
      (hi : i < (process_pdf env pages_text images captions).contents.length),
      ((process_pdf env pages_text images captions).contents.get
        ⟨i, hi⟩).page_number = i + 1 ∧
      ((process_pdf env pages_text images captions).contents.get
        ⟨i, hi⟩).images =
        some (images.filter (fun img => img.page_number ==
          ((process_pdf env pages_text images captions).contents.get
            ⟨i, hi⟩).page_number))) ∧
    (∀ captions' : List CaptionRec,
      process_pdf env pages_text images captions' =
        process_pdf env pages_text images captions) := by
  have hcontents : (process_pdf env pages_text images captions).contents =
      (pyEnumerate 1 pages_text).map (pageOf env images) := by
    show ((pyEnumerate 1 pages_text).foldl (process_page_step env images)
      ([], Cost.zero_cost)).1 = _
    rw [foldl_pages_fst env images (pyEnumerate 1 pages_text) [] Cost.zero_cost]
    simp
  refine ⟨?_, ?_, fun captions' => rfl⟩
  · rw [hcontents, List.length_map, pyEnumerate_length]
  · intro i hi
    have hi' : i < pages_text.length := by
      have h2 := hi
      rw [hcontents, List.length_map, pyEnumerate_length] at h2
      exact h2
    have hienum : i < (pyEnumerate 1 pages_text).length := by
      rw [pyEnumerate_length]
      exact hi'
    have hget : (process_pdf env pages_text images captions).contents.get
        ⟨i, hi⟩ = pageOf env images (1 + i, pages_text[i]) := by
      rw [List.get_of_eq hcontents ⟨i, hi⟩]
      simp only [List.get_eq_getElem, Fin.coe_cast, List.getElem_map]
      rw [pyEnumerate_getElem 1 pages_text i hienum hi']
    rw [hget]
    constructor
    · show 1 + i = i + 1
      omega
    · rfl

/-- Witness for the C3 theorem: a concrete two-page run has two page
entries, and swapping the caption list leaves the whole Document
unchanged. -/
theorem process_pdf_assembly_witness :
    (process_pdf env0 ["a", "b"] [img0] []).contents.length = 2 ∧
    process_pdf env0 ["a", "b"] [img0] [capW] =
      process_pdf env0 ["a", "b"] [img0] [] := by
  have h := process_pdf_page_assembly_invariant env0 ["a", "b"] [img0] []
  exact ⟨h.1, h.2.2 [capW]⟩

/-- C4: the Document's aggregate cost is the monoid sum, over the pages in
order, of each page's text-rewrite cost only, and the cost returned by the
page processor is exactly the text rewriter's cost (image descriptions
contribute nothing). -/
theorem document_cost_sums_text_rewrite_only (env : PdfEnv)
    (pages_text : List String) (images : List ImageRec)
    (captions : List CaptionRec) :
    (process_pdf env pages_text images captions).cost =
      pages_text.foldl
        (fun c t => c.add_cost (process_text_with_llm env.chat t).2)
        Cost.zero_cost ∧
    (∀ (page_text : String) (page_images : List ImageRec) (page_num : ℕ),
      (_process_single_page env page_text page_images page_num).2 =
        (process_text_with_llm env.chat page_text).2) := by
  constructor
  · show ((pyEnumerate 1 pages_text).foldl (process_page_step env images)
      ([], Cost.zero_cost)).2 = _
    exact foldl_pages_snd env images pages_text 1 [] Cost.zero_cost
  · intro page_text page_images page_num
    rfl

theorem img_cap_dist_sq_nonneg (image : ImageRec) (caption : CaptionRec) :
    0 ≤ img_cap_dist_sq image caption := by
  unfold img_cap_dist_sq calculate_distance_sq
  positivity

theorem BestAcc_step (image : ImageRec) (seen : List CaptionRec)
    (acc : Option (CaptionRec × ℚ)) (c : CaptionRec)
    (h : BestAcc image seen acc) :
    BestAcc image (seen ++ [c]) (consider_caption image acc c) := by
  unfold consider_caption
  by_cases hb : caption_below image c
  · rw [if_pos hb]
    cases acc with
    | none =>
      refine ⟨rfl, hb, ⟨seen, [], rfl, ?_⟩, ?_⟩
      · intro c' hc' hbc'
        exact absurd hbc' (h c' hc')
      · intro c' hc' hbc'
        rcases List.mem_append.mp hc' with hmem | hmem
        · exact absurd hbc' (h c' hmem)
        · rw [List.mem_singleton.mp hmem]
    | some pd =>
      obtain ⟨hd, hbp, ⟨p, q, hseen, hearly⟩, hmin⟩ := h
      show BestAcc image (seen ++ [c])
        (if img_cap_dist_sq image c < pd.2
         then some (c, img_cap_dist_sq image c) else some pd)
      by_cases hlt : img_cap_dist_sq image c < pd.2
      · rw [if_pos hlt]
        refine ⟨rfl, hb, ⟨seen, [], rfl, ?_⟩, ?_⟩
        · intro c' hc' hbc'
          exact lt_of_lt_of_le hlt (hmin c' hc' hbc')
        · intro c' hc' hbc'
          rcases List.mem_append.mp hc' with hmem | hmem
          · exact le_of_lt (lt_of_lt_of_le hlt (hmin c' hmem hbc'))
          · rw [List.mem_singleton.mp hmem]
      · rw [if_neg hlt]
        refine ⟨hd, hbp, ⟨p, q ++ [c], by rw [hseen]; simp, hearly⟩, ?_⟩
        intro c' hc' hbc'
        rcases List.mem_append.mp hc' with hmem | hmem
        · exact hmin c' hmem hbc'
        · rw [List.mem_singleton.mp hmem]
          exact le_of_not_lt hlt
  · rw [if_neg hb]
    cases acc with
    | none =>
      intro c' hc'
      rcases List.mem_append.mp hc' with hmem | hmem
      · exact h c' hmem
      · rw [List.mem_singleton.mp hmem]
        exact hb
    | some pd =>
      obtain ⟨hd, hbp, ⟨p, q, hseen, hearly⟩, hmin⟩ := h
      refine ⟨hd, hbp, ⟨p, q ++ [c], by rw [hseen]; simp, hearly⟩, ?_⟩
      intro c' hc' hbc'
      rcases List.mem_append.mp hc' with hmem | hmem
      · exact hmin c' hmem hbc'
      · rw [List.mem_singleton.mp hmem] at hbc'
        exact absurd hbc' hb

theorem BestAcc_foldl (image : ImageRec) (caps : List CaptionRec) :
    ∀ (pre : List CaptionRec) (acc : Option (CaptionRec × ℚ)),
      BestAcc image pre acc →
      BestAcc image (pre ++ caps) (caps.foldl (consider_caption image) acc) := by
  induction caps with
  | nil =>
    intro pre acc h
    simpa using h
  | cons c cs ih =>
    intro pre acc h
    rw [List.foldl_cons]
    have h3 := ih (pre ++ [c]) (consider_caption image acc c)
      (BestAcc_step image pre acc c h)
    rw [List.append_assoc] at h3
    exact h3

theorem best_caption_spec (image : ImageRec) (captions : List CaptionRec) :
    BestAcc image captions (best_caption image captions) := by
  have h := BestAcc_foldl image captions [] none
    (fun c hc => absurd hc (List.not_mem_nil c))
  exact h

/-- C2: the matcher produces exactly one entry per input image, in image
input order, pairing each image's id with the id of a caption that lies on
the same page strictly below the image (midpoint y strictly greater) at
minimal Euclidean midpoint distance, ties resolved to the
first-encountered caption (every qualifying caption listed strictly
earlier is strictly farther); when no same-page caption lies strictly
below the image, the entry's second component is `none`. -/
theorem match_figures_to_captions_characterization (images : List ImageRec)
    (captions : List CaptionRec) :
    (match_figures_to_captions images captions).length = images.length ∧
    List.Forall₂ (fun (image : ImageRec) (entry : String × Option String) =>
      entry.1 = image.id ∧
      (entry.2 = none ↔ ∀ c ∈ captions, ¬ caption_below image c) ∧
      (∀ cid, entry.2 = some cid →
        ∃ p c q, captions = p ++ c :: q ∧ c.id = cid ∧ caption_below image c ∧
          (∀ c' ∈ captions, caption_below image c' →
            Real.sqrt ((img_cap_dist_sq image c : ℝ)) ≤
              Real.sqrt ((img_cap_dist_sq image c' : ℝ))) ∧
          (∀ c' ∈ p, caption_below image c' →
            Real.sqrt ((img_cap_dist_sq image c : ℝ)) <
              Real.sqrt ((img_cap_dist_sq image c' : ℝ)))))
      images (match_figures_to_captions images captions) := by
  constructor
  · unfold match_figures_to_captions
    rw [List.length_map]
  · unfold match_figures_to_captions
    rw [List.forall₂_map_right_iff, List.forall₂_same]
    intro image _
    have hspec := best_caption_spec image captions
    cases hbc : best_caption image captions with
    | none =>
      rw [hbc] at hspec
      refine ⟨rfl, ⟨fun _ => hspec, fun _ => rfl⟩, ?_⟩
      intro cid hcid
      simp at hcid
    | some pd =>
      rw [hbc] at hspec
      obtain ⟨hd, hbp, ⟨p, q, hseen, hearly⟩, hmin⟩ := hspec
      have hmem : pd.1 ∈ captions := by
        rw [hseen]
        exact List.mem_append_right p (List.mem_cons_self pd.1 q)
      refine ⟨rfl, ⟨fun hcontra => by simp at hcontra, fun hall =>
        absurd hbp (hall pd.1 hmem)⟩, ?_⟩
      intro cid hcid
      have hid : pd.1.id = cid := by simpa using hcid
      refine ⟨p, pd.1, q, hseen, hid, hbp, ?_, ?_⟩
      · intro c' hc' hbc'
        have hle : pd.2 ≤ img_cap_dist_sq image c' := hmin c' hc' hbc'
        rw [hd] at hle
        exact Real.sqrt_le_sqrt (by exact_mod_cast hle)
      · intro c' hc' hbc'
        have hlt : pd.2 < img_cap_dist_sq image c' := hearly c' hc' hbc'
        rw [hd] at hlt
        exact Real.sqrt_lt_sqrt
          (by exact_mod_cast img_cap_dist_sq_nonneg image pd.1)
          (by exact_mod_cast hlt)

/-- Witness for the C2 theorem: one image and one caption, both without
coordinates, so both midpoints default to the origin; no caption lies
strictly below the image, and the single entry pairs the image id with
`none`. -/
theorem match_figures_witness :
    (match_figures_to_captions [img0]
      [⟨"c1", 1, none, "cap", "FigureCaption"⟩]).length = 1 ∧
    match_figures_to_captions [img0]
      [⟨"c1", 1, none, "cap", "FigureCaption"⟩] = [("img0", none)] :=
  ⟨(match_figures_to_captions_characterization [img0]
    [⟨"c1", 1, none, "cap", "FigureCaption"⟩]).1, by decide⟩
